import Mathlib

/-!
# Verification of the FEB basketball feature pipeline

Shallow embedding of the transformation core of the FEB-Basketball-Clustering
repository: opponent resolution (`etl_pipeline.transform`), cleaning/filtering
(`data_cleaner.py`), feature engineering (`feature_engineer.py`), per-player
aggregation (`data_aggregator.py`) and scaling (`scaler.py`).

Numeric columns are modelled over `ℚ` (exact arithmetic idealizing the
pandas/numpy float computations); the scaler additionally uses an `FVal` type
with explicit NaN/±Inf constructors, and `ℝ` for the z-score statistic.
-/

namespace FEB

/-! ## Configuration constants (config.py) -/

/-- config.py: `FREE_THROW_POSSESSION_FACTOR = 0.44`. -/
def FREE_THROW_POSSESSION_FACTOR : ℚ := 44 / 100

/-- config.py: `EFFICIENCY_MULTIPLIER = 100`. -/
def EFFICIENCY_MULTIPLIER : ℚ := 100

/-- config.py: `MIN_GAMES_THRESHOLD = 5`. -/
def MIN_GAMES_THRESHOLD : ℕ := 5

/-- config.py: `MIN_MINUTES_THRESHOLD = 0`. -/
def MIN_MINUTES_THRESHOLD : ℚ := 0

/-! ## Data model

`PlayerRow` is one row of the player-game table (§3 GameRecord).  The source
columns `2pa, 2pm, 3pa, 3pm` are written `pa2, pm2, pa3, pm3` because Lean
identifiers cannot start with a digit.  `minutes` is stored in seconds, as in
the source. -/

structure PlayerRow where
  player_feb_id : ℕ
  player_name : String
  team_feb_id : ℕ
  match_feb_id : ℕ
  minutes : ℚ
  pts : ℚ
  fga : ℚ
  fgm : ℚ
  pa3 : ℚ
  pm3 : ℚ
  pa2 : ℚ
  pm2 : ℚ
  fta : ℚ
  ftm : ℚ
  orb : ℚ
  drb : ℚ
  trb : ℚ
  ast : ℚ
  stl : ℚ
  blk : ℚ
  tov : ℚ
  pf : ℚ
  deriving DecidableEq, Repr

/-- One row of the team-game table (§3 TeamGameRecord), restricted to the
columns the opponent-resolution step reads. -/
structure TeamRow where
  team_feb_id : ℕ
  match_feb_id : ℕ
  pts : ℚ
  fga : ℚ
  fta : ℚ
  orb : ℚ
  tov : ℚ
  deriving DecidableEq, Repr

/-- A default player row (all identifiers/stats zero), used to build concrete
test rows with `with` updates. -/
def row0 : PlayerRow :=
  ⟨0, "", 0, 0, 0, 0, 0, 0, 0, 0, 0, 0, 0, 0, 0, 0, 0, 0, 0, 0, 0, 0⟩

/-! ## Feature engineering (feature_engineer.py)

Each derived DataFrame column becomes a function `PlayerRow → ℚ`. -/

/-- `convert_seconds_to_minutes`: `df['minutes_played'] = df['minutes'] / 60`. -/
def minutes_played (r : PlayerRow) : ℚ := r.minutes / 60

/-- `calculate_possessions`:
`possessions = fga + FREE_THROW_POSSESSION_FACTOR * fta - orb + tov`. -/
def possessions (r : PlayerRow) : ℚ :=
  r.fga + FREE_THROW_POSSESSION_FACTOR * r.fta - r.orb + r.tov

/-- `calculate_oer`: `np.where(possessions > 0, 100 * pts / possessions, 0)`. -/
def oer (r : PlayerRow) : ℚ :=
  if 0 < possessions r then EFFICIENCY_MULTIPLIER * (r.pts / possessions r) else 0

/-- `calculate_shooting_percentages`: `np.where(df['2pa'] > 0, 2pm/2pa, 0)`. -/
def fg2_pct (r : PlayerRow) : ℚ := if 0 < r.pa2 then r.pm2 / r.pa2 else 0

/-- `calculate_shooting_percentages`: `np.where(df['3pa'] > 0, 3pm/3pa, 0)`. -/
def fg3_pct (r : PlayerRow) : ℚ := if 0 < r.pa3 then r.pm3 / r.pa3 else 0

/-- `calculate_shooting_percentages`: `np.where(df['fta'] > 0, ftm/fta, 0)`. -/
def ft_pct (r : PlayerRow) : ℚ := if 0 < r.fta then r.ftm / r.fta else 0

/-- `calculate_usage_rates`: `np.where(df['fga'] > 0, 2pa/fga, 0)`. -/
def usage_2p (r : PlayerRow) : ℚ := if 0 < r.fga then r.pa2 / r.fga else 0

/-- `calculate_usage_rates`: `np.where(df['fga'] > 0, 3pa/fga, 0)`. -/
def usage_3p (r : PlayerRow) : ℚ := if 0 < r.fga then r.pa3 / r.fga else 0

/-! ## Opponent resolution (etl_pipeline.py, `ETLPipeline.transform`, lines 107–134) -/

/-- `df_teams['team_possessions'] = fga + FREE_THROW_POSSESSION_FACTOR*fta - orb + tov`. -/
def team_possessions (t : TeamRow) : ℚ :=
  t.fga + FREE_THROW_POSSESSION_FACTOR * t.fta - t.orb + t.tov

/-- An emitted opponent link: one appended dict of `opponent_data`. -/
structure OppLink where
  match_feb_id : ℕ
  team_feb_id : ℕ
  opponent_possessions : ℚ
  opponent_pts : ℚ
  deriving DecidableEq, Repr

/-- The inner `for idx, team_row in teams_in_match.iterrows()` loop:
for each row of `tim` (the rows of the full team table sharing the match id),
look up the first row of `full` with a different `team_feb_id`
(`teams_in_match[team_feb_id != ...].iloc[0]`) and append a link.  `.iloc[0]`
on an empty selection raises `IndexError`; that crash is modelled as `none`. -/
def linksLoop (tim : List TeamRow) (m : ℕ) (full : List TeamRow) : Option (List OppLink) :=
  match tim with
  | [] => some []
  | r :: rest =>
    match (full.filter (fun s => s.team_feb_id != r.team_feb_id)).head? with
    | none => none
    | some o =>
      match linksLoop rest m full with
      | none => none
      | some ls => some (⟨m, r.team_feb_id, team_possessions o, o.pts⟩ :: ls)

/-- One iteration of the outer `for match_id in df['match_feb_id'].unique()` loop:
`teams_in_match = df_teams[df_teams['match_feb_id'] == match_id]`; links are
appended only when `len(teams_in_match) == 2`. -/
def linksForMatch (teams : List TeamRow) (m : ℕ) : Option (List OppLink) :=
  if (teams.filter (fun t => t.match_feb_id == m)).length = 2 then
    linksLoop (teams.filter (fun t => t.match_feb_id == m)) m
      (teams.filter (fun t => t.match_feb_id == m))
  else some []

/-- The full outer loop over the distinct match ids of the player table,
accumulating `opponent_data`.  `none` propagates the `IndexError` crash. -/
def opponentLoop (matchIds : List ℕ) (teams : List TeamRow) : Option (List OppLink) :=
  match matchIds with
  | [] => some []
  | m :: ms =>
    match linksForMatch teams m, opponentLoop ms teams with
    | some ls, some rest => some (ls ++ rest)
    | _, _ => none

/-- `opponent_data` as built by `ETLPipeline.transform`: the outer loop runs
over `df['match_feb_id'].unique()` of the *player* table (first-occurrence
order, as pandas `unique`). -/
def opponentData (players : List PlayerRow) (teams : List TeamRow) : Option (List OppLink) :=
  opponentLoop ((players.map (·.match_feb_id)).dedup) teams

/-- A player row after the left merge with `df_opponents`:
`opp = some (opponent_possessions, opponent_pts)` when matched, `none`
(pandas `NaN` for both columns) when unmatched. -/
structure EnrichedRow where
  base : PlayerRow
  opp : Option (ℚ × ℚ)
  deriving DecidableEq, Repr

/-- The row set of a *successful*
`df.merge(df_opponents, on=['match_feb_id','team_feb_id'], how='left')`:
each player row is replicated once per matching link, or kept once with the
opponent columns unset when no link matches. -/
def mergeRows (players : List PlayerRow) (links : List OppLink) : List EnrichedRow :=
  players.flatMap (fun p =>
    match links.filter
        (fun l => l.match_feb_id == p.match_feb_id && l.team_feb_id == p.team_feb_id) with
    | [] => [⟨p, none⟩]
    | ms => ms.map (fun l => ⟨p, some (l.opponent_possessions, l.opponent_pts)⟩))

/-- `df_opponents = pd.DataFrame(opponent_data)` followed by
`df.merge(df_opponents, on=['match_feb_id','team_feb_id'], how='left')`.
When `opponent_data` is empty, `pd.DataFrame([])` has no columns at all, so
the merge on the two key columns raises `KeyError`; that crash is modelled as
`none`.  Otherwise the merge succeeds and yields `mergeRows`. -/
def mergeOpponents (players : List PlayerRow) (links : List OppLink) :
    Option (List EnrichedRow) :=
  if links.isEmpty then none else some (mergeRows players links)

/-! ## Cleaner (data_cleaner.py) -/

/-- `filter_by_minutes`: `df[df['minutes'] > min_minutes]`. -/
def filter_by_minutes (rows : List PlayerRow) (min_minutes : ℚ) : List PlayerRow :=
  rows.filter (fun r => decide (min_minutes < r.minutes))

/-- The rows of one player's group:
`df[df[player_id_col] == p]` (the rows a `groupby(player_id_col)` group holds). -/
def groupRows (rows : List PlayerRow) (p : ℕ) : List PlayerRow :=
  rows.filter (fun r => r.player_feb_id == p)

/-- `df.groupby(player_id_col)` keys: the distinct player ids, in the sorted
order pandas uses. -/
def groupKeys (rows : List PlayerRow) : List ℕ :=
  ((rows.map (·.player_feb_id)).dedup).insertionSort (· ≤ ·)

/-- `groupby(player_id_col).size()` for one player: the player's game count. -/
def gamesCount (rows : List PlayerRow) (p : ℕ) : ℕ := (groupRows rows p).length

/-- `filter_by_games_played`: keep the rows whose player id is among
`valid_players`, the ids whose game count meets `min_games`
(`num_games >= min_games`). -/
def filter_by_games_played (rows : List PlayerRow) (min_games : ℕ) : List PlayerRow :=
  let valid := (groupKeys rows).filter (fun p => decide (min_games ≤ gamesCount rows p))
  rows.filter (fun r => decide (r.player_feb_id ∈ valid))

/-! ## Aggregation (data_aggregator.py, `DataAggregator.aggregate_by_player`)

The aggregator is generic over the feature columns; we model one feature
column as a function `f : PlayerRow → ℚ` (e.g. `oer`, or any `*_per36`
column).  `minutes_played` is the column created by
`convert_seconds_to_minutes`, hence the function `minutes_played` above. -/

/-- One output row of `aggregate_by_player`, restricted to one feature column
`fval` besides the id, name and aggregated minutes. -/
structure AggRow where
  pid : ℕ
  pname : String
  minutes_played : ℚ
  fval : ℚ
  deriving DecidableEq, Repr

/-- `DataAggregator.aggregate_by_player` for one feature column `f`.
`weighted = true` (the default): per group,
`result[col] = (group[col] * group['minutes_played']).sum() / total_minutes`
and `result['minutes_played'] = total_minutes`.
`weighted = false`: the simple branch aggregates the feature with `'mean'`
and `minutes_played` with `'sum'`.  In both branches `player_name` is the
group's first value; `reset_index` makes the group key the `pid` column. -/
def aggregate_by_player (rows : List PlayerRow) (f : PlayerRow → ℚ) (weighted : Bool) :
    List AggRow :=
  (groupKeys rows).map (fun p =>
    let g := groupRows rows p
    if weighted then
      { pid := p
        pname := (g.map (·.player_name)).headD ""
        minutes_played := (g.map minutes_played).sum
        fval := (g.map (fun r => f r * minutes_played r)).sum / (g.map minutes_played).sum }
    else
      { pid := p
        pname := (g.map (·.player_name)).headD ""
        minutes_played := (g.map minutes_played).sum
        fval := (g.map f).sum / (g.length : ℚ) })

/-- Guarded division: `some (a / b)` unless the denominator is zero.
`none` models the float NaN/±Inf an unguarded zero-denominator division would
produce. -/
def qdiv? (a b : ℚ) : Option ℚ := if b = 0 then none else some (a / b)

/-! ## Scaler (scaler.py, `DataScaler`)

Table entries are `FVal`: a finite rational or one of the float specials
NaN, +Inf, −Inf, so that the `replace([inf, -inf], nan)` / `fillna` steps are
explicit.  The z-score statistic (sklearn `StandardScaler`, external to the
repository) is modelled from the spec: per-column mean and standard deviation
over the clean table, with sklearn's zero-variance fallback `scale = 1`. -/

/-- A float cell value: finite, NaN, +Inf or −Inf. -/
inductive FVal where
  | fin (q : ℚ)
  | nan
  | pinf
  | ninf
  deriving DecidableEq, Repr

/-- The finite value of a cell (`0` for the specials; used only on cleaned
tables, whose cells are all finite). -/
def FVal.toQ : FVal → ℚ
  | .fin q => q
  | _ => 0

/-- The cleaning applied to one cell by `fit_transform`:
`replace([np.inf, -np.inf], np.nan)` when `handle_infinity`, then
`fillna(fill_na)`. -/
def cleanEntry (handle_infinity : Bool) (fill_na : ℚ) (v : FVal) : FVal :=
  let v1 := if handle_infinity then
    (match v with
     | .pinf => .nan
     | .ninf => .nan
     | x => x)
  else v
  match v1 with
  | .nan => .fin fill_na
  | x => x

/-- A feature table: named columns, rows of cells. -/
structure FTable where
  cols : List String
  rows : List (List FVal)
  deriving DecidableEq, Repr

/-- `df_clean` as produced inside `fit_transform`: every cell cleaned, the
columns untouched. -/
def cleanTable (handle_infinity : Bool) (fill_na : ℚ) (t : FTable) : FTable :=
  ⟨t.cols, t.rows.map (·.map (cleanEntry handle_infinity fill_na))⟩

/-- The clean table as a rational matrix (all its cells are finite). -/
def cleanMatrix (handle_infinity : Bool) (fill_na : ℚ) (t : FTable) : List (List ℚ) :=
  (cleanTable handle_infinity fill_na t).rows.map (·.map FVal.toQ)

/-- Column `j` of a rational matrix (rows shorter than `j` contribute `0`;
the tables fed to the scaler are rectangular). -/
def colVals (m : List (List ℚ)) (j : ℕ) : List ℚ := m.map (fun row => row.getD j 0)

/-- Modelled from the spec: the fitted per-column mean of the z-score
("standard") statistic, `mean_j = (Σ_i x_ij) / n`. -/
def colMean (m : List (List ℚ)) (j : ℕ) : ℚ := (colVals m j).sum / (m.length : ℚ)

/-- Modelled from the spec: the fitted per-column (biased) variance of the
z-score statistic, `var_j = (Σ_i (x_ij − mean_j)²) / n`. -/
def colVar (m : List (List ℚ)) (j : ℕ) : ℚ :=
  ((colVals m j).map (fun x => (x - colMean m j) ^ 2)).sum / (m.length : ℚ)

/-- Modelled from the spec: the fitted per-column scale (standard deviation),
with the zero-variance fallback `scale = 1` of sklearn `StandardScaler`. -/
noncomputable def colScale (m : List (List ℚ)) (j : ℕ) : ℝ :=
  if colVar m j = 0 then 1 else Real.sqrt (colVar m j)

/-- Modelled from the spec: one scaled cell, `(x − mean_j) / scale_j`. -/
noncomputable def scaleEntry (m : List (List ℚ)) (j : ℕ) (x : ℚ) : ℝ :=
  ((x : ℝ) - (colMean m j : ℝ)) / colScale m j

/-- Modelled from the spec: the scaled matrix of the standard scaler fitted on
`m` itself (`self.scaler.fit_transform(df_clean)`), with `w` columns. -/
noncomputable def scaledMatrix (w : ℕ) (m : List (List ℚ)) : List (List ℝ) :=
  m.map (fun row => (List.range w).map (fun j => scaleEntry m j (row.getD j 0)))

/-- Modelled from the spec: one cell of `inverse_transform`,
`z * scale_j + mean_j`. -/
noncomputable def invEntry (m : List (List ℚ)) (j : ℕ) (z : ℝ) : ℝ :=
  z * colScale m j + (colMean m j : ℝ)

/-- Modelled from the spec: `DataScaler.inverse_transform` with the statistic
fitted on `m`, applied to a scaled matrix `s` of `w` columns. -/
noncomputable def inverseMatrix (m : List (List ℚ)) (w : ℕ) (s : List (List ℝ)) :
    List (List ℝ) :=
  s.map (fun row => (List.range w).map (fun j => invEntry m j (row.getD j 0)))

/-- A real-valued table (the scaled output `df_scaled`). -/
structure RTable where
  cols : List String
  rows : List (List ℝ)

/-- The scaled DataFrame of `fit_transform`:
`pd.DataFrame(scaled_data, columns=df_clean.columns)`. -/
noncomputable def scaledTable (handle_infinity : Bool) (fill_na : ℚ) (t : FTable) : RTable :=
  ⟨(cleanTable handle_infinity fill_na t).cols,
   scaledMatrix t.cols.length (cleanMatrix handle_infinity fill_na t)⟩

/-- The scaler kind held by a successfully constructed `DataScaler`. -/
inductive ScalerKind where
  | standard
  | minmax
  deriving DecidableEq, Repr

/-- `DataScaler.__init__`: `StandardScaler` for `'standard'`, `MinMaxScaler`
for `'minmax'`, otherwise `raise ValueError` before any fitting. -/
def scalerInit (scaler_type : String) : Except String ScalerKind :=
  if scaler_type = "standard" then .ok .standard
  else if scaler_type = "minmax" then .ok .minmax
  else .error ("Tipus descalador no valid: " ++ scaler_type)

/-! ## Concrete fixture rows for the witness theorems -/

/-- Two games of player 7 (600 and 1200 seconds, 30 and 60 points). -/
def pGame1 : PlayerRow :=
  { row0 with player_feb_id := 7, player_name := "A", team_feb_id := 1, match_feb_id := 5,
              minutes := 600, pts := 30 }

/-- Second game of player 7. -/
def pGame2 : PlayerRow :=
  { row0 with player_feb_id := 7, player_name := "A", team_feb_id := 1, match_feb_id := 6,
              minutes := 1200, pts := 60 }

/-- A single game of player 9. -/
def pGame3 : PlayerRow :=
  { row0 with player_feb_id := 9, player_name := "C", team_feb_id := 2, match_feb_id := 5,
              minutes := 600, pts := 10 }

/-- Team A of match 5: 70 points, possessions `70 + 0.44·0 − 10 + 10 = 70`. -/
def tGameA : TeamRow := ⟨1, 5, 70, 70, 0, 10, 10⟩

/-- Team B of match 5: 60 points, possessions `60 + 0.44·0 − 5 + 10 = 65`. -/
def tGameB : TeamRow := ⟨2, 5, 60, 60, 0, 5, 10⟩

/-! # Theorems -/

/-- **C4**: For every input row, `possessions = fga + 0.44·fta − orb + tov`
exactly (`fga=10, fta=5, orb=2, tov=3` gives `13.2 = 66/5`), and
`oer = 100·pts/possessions` when `possessions > 0`, `oer = 0` when
`possessions ≤ 0` (`pts=20, possessions=13.2` gives `5000/33 ≈ 151.52`). -/
theorem C4_possessions_oer (r : PlayerRow) :
    possessions r = r.fga + (44 / 100) * r.fta - r.orb + r.tov
    ∧ (0 < possessions r → oer r = 100 * (r.pts / possessions r))
    ∧ (possessions r ≤ 0 → oer r = 0)
    ∧ possessions { row0 with fga := 10, fta := 5, orb := 2, tov := 3 } = 66 / 5
    ∧ oer { row0 with pts := 20, fga := 10, fta := 5, orb := 2, tov := 3 } = 5000 / 33 := by
  refine ⟨rfl, ?_, ?_, ?_, ?_⟩
  · intro h
    rw [oer, if_pos h, EFFICIENCY_MULTIPLIER]
  · intro h
    rw [oer, if_neg (not_lt.mpr h)]
  · norm_num [possessions, FREE_THROW_POSSESSION_FACTOR, row0]
  · norm_num [oer, possessions, FREE_THROW_POSSESSION_FACTOR, EFFICIENCY_MULTIPLIER, row0]

/-- Witness for C4 at the spec's literal inputs: possessions `13.2` is
positive, so `oer` takes the quotient branch, and at the all-zero row
`possessions ≤ 0`, so `oer` is `0`. -/
theorem C4_possessions_oer_witness :
    oer { row0 with pts := 20, fga := 10, fta := 5, orb := 2, tov := 3 }
      = 100 * ((20 : ℚ) / possessions { row0 with pts := 20, fga := 10, fta := 5, orb := 2, tov := 3 })
    ∧ oer row0 = 0 :=
  ⟨(C4_possessions_oer _).2.1
      (by norm_num [possessions, FREE_THROW_POSSESSION_FACTOR, row0]),
   (C4_possessions_oer row0).2.2.1
      (by norm_num [possessions, FREE_THROW_POSSESSION_FACTOR, row0])⟩

/-- **C5**: For every input row, `fg2_pct = 2pm/2pa` when `2pa > 0` and `0`
when `2pa = 0`, analogously `fg3_pct` and `ft_pct`; `usage_2p = 2pa/fga` and
`usage_3p = 3pa/fga` when `fga > 0`, both `0` when `fga = 0` — the guarded
definitions never divide by zero. -/
theorem C5_percentages_usage (r : PlayerRow) :
    (0 < r.pa2 → fg2_pct r = r.pm2 / r.pa2) ∧ (r.pa2 = 0 → fg2_pct r = 0)
    ∧ (0 < r.pa3 → fg3_pct r = r.pm3 / r.pa3) ∧ (r.pa3 = 0 → fg3_pct r = 0)
    ∧ (0 < r.fta → ft_pct r = r.ftm / r.fta) ∧ (r.fta = 0 → ft_pct r = 0)
    ∧ (0 < r.fga → usage_2p r = r.pa2 / r.fga ∧ usage_3p r = r.pa3 / r.fga)
    ∧ (r.fga = 0 → usage_2p r = 0 ∧ usage_3p r = 0) := by
  refine ⟨?_, ?_, ?_, ?_, ?_, ?_, ?_, ?_⟩ <;> intro h
  · rw [fg2_pct, if_pos h]
  · rw [fg2_pct, if_neg (by rw [h]; exact lt_irrefl 0)]
  · rw [fg3_pct, if_pos h]
  · rw [fg3_pct, if_neg (by rw [h]; exact lt_irrefl 0)]
  · rw [ft_pct, if_pos h]
  · rw [ft_pct, if_neg (by rw [h]; exact lt_irrefl 0)]
  · exact ⟨by rw [usage_2p, if_pos h], by rw [usage_3p, if_pos h]⟩
  · exact ⟨by rw [usage_2p, if_neg (by rw [h]; exact lt_irrefl 0)],
           by rw [usage_3p, if_neg (by rw [h]; exact lt_irrefl 0)]⟩

/-- Witness for C5 at a row with `2pa = 0`, `3pa = 4`, `fga = 4`: `fg2_pct`
falls back to `0` (not NaN) while `usage_3p` takes the quotient branch. -/
theorem C5_percentages_usage_witness :
    fg2_pct { row0 with pa3 := 4, pm3 := 2, fga := 4 } = 0
    ∧ usage_3p { row0 with pa3 := 4, pm3 := 2, fga := 4 }
        = (4 : ℚ) / (4 : ℚ) :=
  ⟨(C5_percentages_usage _).2.1 (by norm_num [row0]),
   ((C5_percentages_usage { row0 with pa3 := 4, pm3 := 2, fga := 4 }).2.2.2.2.2.2.1
      (by norm_num [row0])).2⟩

/-- **C9**: `DataScaler` construction succeeds exactly for the strings
`"standard"` and `"minmax"`; any other scaler-type string fails fast with a
configuration error (`ValueError`), before any fitting occurs. -/
theorem C9_scaler_init :
    scalerInit "standard" = .ok .standard
    ∧ scalerInit "minmax" = .ok .minmax
    ∧ (∀ s, (∃ k, scalerInit s = .ok k) ↔ (s = "standard" ∨ s = "minmax"))
    ∧ (∀ s, s ≠ "standard" → s ≠ "minmax" →
        scalerInit s = .error ("Tipus descalador no valid: " ++ s)) := by
  refine ⟨rfl, rfl, ?_, ?_⟩
  · intro s
    constructor
    · rintro ⟨k, hk⟩
      by_contra hcon
      push_neg at hcon
      rw [scalerInit, if_neg hcon.1, if_neg hcon.2] at hk
      exact Except.noConfusion hk
    · rintro (rfl | rfl)
      · exact ⟨.standard, rfl⟩
      · exact ⟨.minmax, rfl⟩
  · intro s h1 h2
    rw [scalerInit, if_neg h1, if_neg h2]

/-- Witness for C9 at the unsupported string `"robust"`: construction fails
with the configuration error. -/
theorem C9_scaler_init_witness :
    scalerInit "robust" = .error ("Tipus descalador no valid: " ++ "robust") :=
  C9_scaler_init.2.2.2 "robust" (by decide) (by decide)

/-- One cleaning step, `handle_infinity = true`: a cell is replaced by
`fill_na` exactly when it is NaN, +Inf or −Inf, and kept otherwise. -/
lemma cleanEntry_true (fill : ℚ) (v : FVal) :
    cleanEntry true fill v =
      if v = FVal.nan ∨ v = FVal.pinf ∨ v = FVal.ninf then FVal.fin fill else v := by
  cases v <;> simp [cleanEntry]

/-- **C7**: `fit_transform` with `handle_infinity = true` returns a clean
table equal to the input with every +Inf, −Inf and NaN cell replaced by
`fill_na` and all other cells unchanged — so the clean table has no NaN and
no ±Inf — and column names, column order and row counts are preserved in
both the clean and the scaled output. -/
theorem C7_fit_transform_clean (t : FTable) (fill : ℚ) :
    (cleanTable true fill t).cols = t.cols
    ∧ (scaledTable true fill t).cols = t.cols
    ∧ (cleanTable true fill t).rows.length = t.rows.length
    ∧ (scaledTable true fill t).rows.length = t.rows.length
    ∧ (∀ row ∈ (cleanTable true fill t).rows, ∀ v ∈ row, ∃ q, v = FVal.fin q)
    ∧ (cleanTable true fill t).rows
        = t.rows.map (fun row => row.map (fun v =>
            if v = FVal.nan ∨ v = FVal.pinf ∨ v = FVal.ninf then FVal.fin fill else v)) := by
  refine ⟨rfl, rfl, ?_, ?_, ?_, ?_⟩
  · simp [cleanTable]
  · simp [scaledTable, scaledMatrix, cleanMatrix, cleanTable]
  · intro row hrow v hv
    rw [cleanTable] at hrow
    simp only [List.mem_map] at hrow
    obtain ⟨r0, -, rfl⟩ := hrow
    simp only [List.mem_map] at hv
    obtain ⟨v0, -, rfl⟩ := hv
    cases v0 <;> simp [cleanEntry]
  · rw [cleanTable]
    apply List.map_congr_left
    intro row _
    apply List.map_congr_left
    intro v _
    exact cleanEntry_true fill v

/-- Witness for C7 on a concrete 2×2 table holding a finite value, +Inf, NaN
and another finite value: the clean table keeps the finite cells and fills
the specials with `0`, and contains only finite cells. -/
theorem C7_fit_transform_clean_witness :
    (cleanTable true 0 ⟨["a", "b"], [[FVal.fin 1, FVal.pinf], [FVal.nan, FVal.fin 3]]⟩).rows
      = [[FVal.fin 1, FVal.fin 0], [FVal.fin 0, FVal.fin 3]]
    ∧ ∃ q, FVal.fin (1 : ℚ) = FVal.fin q := by
  constructor
  · rw [(C7_fit_transform_clean ⟨["a", "b"], [[FVal.fin 1, FVal.pinf], [FVal.nan, FVal.fin 3]]⟩ 0).2.2.2.2.2]
    rfl
  · exact (C7_fit_transform_clean ⟨["a", "b"], [[FVal.fin 1, FVal.pinf], [FVal.nan, FVal.fin 3]]⟩ 0).2.2.2.2.1
      [FVal.fin 1, FVal.fin 0] (by rw [cleanTable]; simp [cleanEntry]) (FVal.fin 1) (by simp)

/-- The groupby keys are exactly the player ids occurring in the table. -/
lemma mem_groupKeys {rows : List PlayerRow} {p : ℕ} :
    p ∈ groupKeys rows ↔ p ∈ rows.map (·.player_feb_id) := by
  rw [groupKeys, (List.perm_insertionSort _ _).mem_iff, List.mem_dedup]

/-- The groupby keys are pairwise distinct. -/
lemma nodup_groupKeys (rows : List PlayerRow) : (groupKeys rows).Nodup :=
  (List.perm_insertionSort _ _).nodup_iff.mpr (List.nodup_dedup _)

/-- The `pid` column of the aggregated table is the groupby key list. -/
lemma aggregate_map_pid (rows : List PlayerRow) (f : PlayerRow → ℚ) (w : Bool) :
    (aggregate_by_player rows f w).map AggRow.pid = groupKeys rows := by
  cases w <;> simp [aggregate_by_player, List.map_map, Function.comp_def]

/-- A player id occurs in the aggregated table iff it occurs in the input. -/
lemma mem_aggregate_iff {rows : List PlayerRow} {f : PlayerRow → ℚ} {w : Bool} {p : ℕ} :
    p ∈ (aggregate_by_player rows f w).map AggRow.pid ↔ p ∈ rows.map (·.player_feb_id) := by
  rw [aggregate_map_pid, mem_groupKeys]

/-- Field values of a weighted-mode aggregated row. -/
lemma aggregate_weighted_fields {rows : List PlayerRow} {f : PlayerRow → ℚ} {a : AggRow}
    (ha : a ∈ aggregate_by_player rows f true) :
    a.minutes_played = ((groupRows rows a.pid).map minutes_played).sum
    ∧ a.fval = ((groupRows rows a.pid).map (fun r => f r * minutes_played r)).sum
                / ((groupRows rows a.pid).map minutes_played).sum := by
  rw [aggregate_by_player] at ha
  simp only [if_true, List.mem_map] at ha
  obtain ⟨p, -, rfl⟩ := ha
  exact ⟨rfl, rfl⟩

/-- Field values of a simple-mode aggregated row. -/
lemma aggregate_simple_fields {rows : List PlayerRow} {f : PlayerRow → ℚ} {a : AggRow}
    (ha : a ∈ aggregate_by_player rows f false) :
    a.minutes_played = ((groupRows rows a.pid).map minutes_played).sum
    ∧ a.fval = ((groupRows rows a.pid).map f).sum / ((groupRows rows a.pid).length : ℚ) := by
  rw [aggregate_by_player] at ha
  simp only [Bool.false_eq_true, if_false, List.mem_map] at ha
  obtain ⟨p, -, rfl⟩ := ha
  exact ⟨rfl, rfl⟩

/-- **C2**: In weighted mode (the default), `aggregate_by_player` produces
exactly one row per distinct player id; each row carries, for the aggregated
feature `f`, the minutes-weighted mean `Σ(f_i·m_i)/Σ(m_i)` over that player's
qualifying game rows, and `minutes_played` equal to `Σ m_i`; conversely the
row with those exact values is present for every player of the input. -/
theorem C2_weighted_aggregation (rows : List PlayerRow) (f : PlayerRow → ℚ) :
    ((aggregate_by_player rows f true).map AggRow.pid).Nodup
    ∧ (∀ p, p ∈ (aggregate_by_player rows f true).map AggRow.pid
          ↔ p ∈ rows.map (·.player_feb_id))
    ∧ (∀ a ∈ aggregate_by_player rows f true,
        a.fval = ((groupRows rows a.pid).map (fun r => f r * minutes_played r)).sum
                  / ((groupRows rows a.pid).map minutes_played).sum
        ∧ a.minutes_played = ((groupRows rows a.pid).map minutes_played).sum)
    ∧ (∀ p, p ∈ rows.map (·.player_feb_id) →
        ({ pid := p
           pname := ((groupRows rows p).map (·.player_name)).headD ""
           minutes_played := ((groupRows rows p).map minutes_played).sum
           fval := ((groupRows rows p).map (fun r => f r * minutes_played r)).sum
                    / ((groupRows rows p).map minutes_played).sum } : AggRow)
          ∈ aggregate_by_player rows f true) := by
  refine ⟨?_, fun p => mem_aggregate_iff, ?_, ?_⟩
  · rw [aggregate_map_pid]
    exact nodup_groupKeys rows
  · intro a ha
    exact ⟨(aggregate_weighted_fields ha).2, (aggregate_weighted_fields ha).1⟩
  · intro p hp
    rw [aggregate_by_player]
    simp only [if_true, List.mem_map]
    exact ⟨p, mem_groupKeys.mpr hp, rfl⟩

/-- Witness for C2: player 7 with games of 10 and 20 minutes and 30 and 60
points aggregates to minutes `30` and weighted points `(30·10+60·20)/30 = 50`. -/
theorem C2_weighted_aggregation_witness :
    (⟨7, "A", 30, 50⟩ : AggRow) ∈ aggregate_by_player [pGame1, pGame2] PlayerRow.pts true := by
  have h := (C2_weighted_aggregation [pGame1, pGame2] PlayerRow.pts).2.2.2 7
    (by simp [pGame1, pGame2, row0])
  have heq : ({ pid := 7
                pname := ((groupRows [pGame1, pGame2] 7).map (·.player_name)).headD ""
                minutes_played := ((groupRows [pGame1, pGame2] 7).map minutes_played).sum
                fval := ((groupRows [pGame1, pGame2] 7).map
                          (fun r => PlayerRow.pts r * minutes_played r)).sum
                         / ((groupRows [pGame1, pGame2] 7).map minutes_played).sum } : AggRow)
      = (⟨7, "A", 30, 50⟩ : AggRow) := by
    norm_num [groupRows, minutes_played, pGame1, pGame2, row0]
  rw [heq] at h
  exact h

/-- Membership in a player's group of rows. -/
lemma mem_groupRows {rows : List PlayerRow} {p : ℕ} {r : PlayerRow} :
    r ∈ groupRows rows p ↔ r ∈ rows ∧ r.player_feb_id = p := by
  simp [groupRows]

/-- **C8**: For every player all of whose rows have one equal positive
playing time, the weighted aggregate of any feature equals the simple
unweighted mean; and a player whose group is a single qualifying game
receives exactly that game's feature value under either aggregation mode. -/
theorem C8_equal_minutes_degenerate (rows : List PlayerRow) (f : PlayerRow → ℚ) :
    (∀ p c, 0 < c → (∀ r ∈ rows, r.player_feb_id = p → minutes_played r = c) →
      ∀ a b, a ∈ aggregate_by_player rows f true → b ∈ aggregate_by_player rows f false →
        a.pid = p → b.pid = p → a.fval = b.fval)
    ∧ (∀ p r, groupRows rows p = [r] → 0 < minutes_played r →
        ∀ w, ∀ a ∈ aggregate_by_player rows f w, a.pid = p → a.fval = f r) := by
  constructor
  · intro p c hc hall a b ha hb hap hbp
    have hga := (aggregate_weighted_fields ha).2
    have hgb := (aggregate_simple_fields hb).2
    rw [hap] at hga
    rw [hbp] at hgb
    have hgrp : ∀ r ∈ groupRows rows p, minutes_played r = c := by
      intro r hr
      exact hall r (mem_groupRows.mp hr).1 (mem_groupRows.mp hr).2
    have h1 : (groupRows rows p).map (fun r => f r * minutes_played r)
        = (groupRows rows p).map (fun r => f r * c) :=
      List.map_congr_left (fun r hr => by rw [hgrp r hr])
    have h2 : (groupRows rows p).map minutes_played
        = (groupRows rows p).map (fun _ => c) :=
      List.map_congr_left (fun r hr => hgrp r hr)
    rw [hga, hgb, h1, h2, List.sum_map_mul_right, List.map_const', List.sum_replicate,
      nsmul_eq_mul, mul_div_mul_right _ _ (ne_of_gt hc)]
  · intro p r hgr hm w a ha hap
    cases w
    · have hga := (aggregate_simple_fields ha).2
      rw [hap, hgr] at hga
      simpa using hga
    · have hga := (aggregate_weighted_fields ha).2
      rw [hap, hgr] at hga
      simp only [List.map_singleton, List.sum_singleton] at hga
      rw [hga, mul_div_cancel_right₀ _ (ne_of_gt hm)]

/-- Witness for C8: two identical 10-minute games of player 7 give the same
aggregate under both modes, and the lone game of player 9 aggregates to
exactly its own point total under simple mode. -/
theorem C8_equal_minutes_degenerate_witness :
    ((aggregate_by_player [pGame1, pGame1] PlayerRow.pts true).headD ⟨0, "", 0, 0⟩).fval
      = ((aggregate_by_player [pGame1, pGame1] PlayerRow.pts false).headD ⟨0, "", 0, 0⟩).fval
    ∧ ((aggregate_by_player [pGame3] PlayerRow.pts false).headD ⟨0, "", 0, 0⟩).fval = 10 := by
  constructor
  · have hne1 : aggregate_by_player [pGame1, pGame1] PlayerRow.pts true ≠ [] :=
      List.ne_nil_of_length_pos (by norm_num [aggregate_by_player, groupKeys, pGame1, row0])
    have hne2 : aggregate_by_player [pGame1, pGame1] PlayerRow.pts false ≠ [] :=
      List.ne_nil_of_length_pos (by norm_num [aggregate_by_player, groupKeys, pGame1, row0])
    exact (C8_equal_minutes_degenerate [pGame1, pGame1] PlayerRow.pts).1 7 10
      (by norm_num)
      (by intro r hr _
          have hr1 : r = pGame1 := by simpa using hr
          rw [hr1]; norm_num [minutes_played, pGame1, row0])
      _ _ (List.head_mem hne1) (List.head_mem hne2) rfl rfl
  · have hne3 : aggregate_by_player [pGame3] PlayerRow.pts false ≠ [] :=
      List.ne_nil_of_length_pos (by norm_num [aggregate_by_player, groupKeys, pGame3, row0])
    exact (C8_equal_minutes_degenerate [pGame3] PlayerRow.pts).2 9 pGame3
      (by rfl) (by norm_num [minutes_played, pGame3, row0]) false
      _ (List.head_mem hne3) rfl

/-- **C10**: `filter_by_minutes` at the configured threshold `0` (and the
extraction query `minutes > 0`) leaves only rows with positive playing time;
under that precondition every player's total `minutes_played` is positive, so
the unguarded division of `weighted_mean` has a nonzero denominator and every
aggregated value is produced finite (the guarded division `qdiv?` returns
`some` of exactly the emitted value). -/
theorem C10_weighted_mean_division_safe (rows : List PlayerRow) (f : PlayerRow → ℚ) :
    (∀ r ∈ filter_by_minutes rows MIN_MINUTES_THRESHOLD, 0 < r.minutes)
    ∧ ((∀ r ∈ rows, 0 < r.minutes) →
        ∀ a ∈ aggregate_by_player rows f true,
          0 < ((groupRows rows a.pid).map minutes_played).sum
          ∧ qdiv? (((groupRows rows a.pid).map (fun r => f r * minutes_played r)).sum)
                  (((groupRows rows a.pid).map minutes_played).sum) = some a.fval) := by
  constructor
  · intro r hr
    have h := List.mem_filter.mp hr
    simpa [MIN_MINUTES_THRESHOLD] using h.2
  · intro hpos a ha
    have hpid : a.pid ∈ (aggregate_by_player rows f true).map AggRow.pid :=
      List.mem_map_of_mem _ ha
    rw [mem_aggregate_iff] at hpid
    obtain ⟨r, hr, hrp⟩ := List.mem_map.mp hpid
    have hrg : r ∈ groupRows rows a.pid := mem_groupRows.mpr ⟨hr, hrp⟩
    have hsum : 0 < ((groupRows rows a.pid).map minutes_played).sum := by
      apply List.sum_pos
      · intro x hx
        obtain ⟨r', hr', rfl⟩ := List.mem_map.mp hx
        have : 0 < r'.minutes := hpos r' (mem_groupRows.mp hr').1
        exact div_pos this (by norm_num)
      · exact fun h => (List.ne_nil_of_mem hrg) (List.map_eq_nil_iff.mp h)
    refine ⟨hsum, ?_⟩
    rw [qdiv?, if_neg (ne_of_gt hsum), (aggregate_weighted_fields ha).2]

/-- Witness for C10: with the single positive-minutes game of player 7, the
group's total minutes is positive and the guarded division succeeds. -/
theorem C10_weighted_mean_division_safe_witness :
    0 < ((groupRows [pGame1] ((aggregate_by_player [pGame1] PlayerRow.pts true).headD
            ⟨0, "", 0, 0⟩).pid).map minutes_played).sum
    ∧ qdiv? (((groupRows [pGame1] ((aggregate_by_player [pGame1] PlayerRow.pts true).headD
            ⟨0, "", 0, 0⟩).pid).map (fun r => PlayerRow.pts r * minutes_played r)).sum)
            (((groupRows [pGame1] ((aggregate_by_player [pGame1] PlayerRow.pts true).headD
            ⟨0, "", 0, 0⟩).pid).map minutes_played).sum)
        = some (((aggregate_by_player [pGame1] PlayerRow.pts true).headD ⟨0, "", 0, 0⟩).fval) := by
  have hne : aggregate_by_player [pGame1] PlayerRow.pts true ≠ [] :=
    List.ne_nil_of_length_pos (by norm_num [aggregate_by_player, groupKeys, pGame1, row0])
  exact (C10_weighted_mean_division_safe [pGame1] PlayerRow.pts).2
    (by intro r hr
        have hr1 : r = pGame1 := by simpa using hr
        rw [hr1]; norm_num [pGame1, row0])
    _ (List.head_mem hne)

/-- **C3**: `filter_by_games_played` retains exactly the rows of players
whose pre-aggregation game count meets `min_games` (a count equal to the
threshold is retained); a player with fewer games is entirely absent from the
aggregated output, and lowering the threshold to that player's game count
restores them. -/
theorem C3_filter_by_games_played (rows : List PlayerRow) (k : ℕ) (f : PlayerRow → ℚ) :
    filter_by_games_played rows k
        = rows.filter (fun r => decide (k ≤ gamesCount rows r.player_feb_id))
    ∧ (∀ p, gamesCount rows p < k →
        p ∉ (aggregate_by_player (filter_by_games_played rows k) f true).map AggRow.pid)
    ∧ (∀ p, p ∈ rows.map (·.player_feb_id) → k ≤ gamesCount rows p →
        p ∈ (aggregate_by_player (filter_by_games_played rows k) f true).map AggRow.pid) := by
  have hfe : filter_by_games_played rows k
      = rows.filter (fun r => decide (k ≤ gamesCount rows r.player_feb_id)) := by
    rw [filter_by_games_played]
    apply List.filter_congr
    intro r hr
    simp only [decide_eq_decide, List.mem_filter, mem_groupKeys, decide_eq_true_eq]
    exact ⟨fun h => h.2, fun h => ⟨List.mem_map_of_mem _ hr, h⟩⟩
  refine ⟨hfe, ?_, ?_⟩
  · intro p hlt hmem
    rw [mem_aggregate_iff] at hmem
    obtain ⟨r, hr, hrp⟩ := List.mem_map.mp hmem
    rw [hfe] at hr
    have h := List.mem_filter.mp hr
    rw [hrp] at h
    exact absurd (of_decide_eq_true h.2) (not_le.mpr hlt)
  · intro p hp hk
    rw [mem_aggregate_iff]
    obtain ⟨r, hr, hrp⟩ := List.mem_map.mp hp
    refine List.mem_map.mpr ⟨r, ?_, hrp⟩
    rw [hfe]
    exact List.mem_filter.mpr ⟨hr, decide_eq_true (by rw [hrp]; exact hk)⟩

/-- Witness for C3: with games `[7, 7, 9]`, player 9 (one game) is absent
from the aggregate at threshold 2 and present again at threshold 1. -/
theorem C3_filter_by_games_played_witness :
    9 ∉ (aggregate_by_player (filter_by_games_played [pGame1, pGame2, pGame3] 2)
          PlayerRow.pts true).map AggRow.pid
    ∧ 9 ∈ (aggregate_by_player (filter_by_games_played [pGame1, pGame2, pGame3] 1)
          PlayerRow.pts true).map AggRow.pid :=
  ⟨(C3_filter_by_games_played [pGame1, pGame2, pGame3] 2 PlayerRow.pts).2.1 9 (by decide),
   (C3_filter_by_games_played [pGame1, pGame2, pGame3] 1 PlayerRow.pts).2.2 9
      (by decide) (by decide)⟩

/-- Every link appended by the inner opponent loop carries the loop's match id. -/
lemma linksLoop_mem {tim : List TeamRow} {m : ℕ} {full : List TeamRow} {ls : List OppLink}
    (h : linksLoop tim m full = some ls) {l : OppLink} (hl : l ∈ ls) :
    l.match_feb_id = m := by
  induction tim generalizing ls with
  | nil =>
    rw [linksLoop] at h
    injection h with h
    subst h
    cases hl
  | cons r rest ih =>
    rw [linksLoop] at h
    cases hh : (full.filter (fun s => s.team_feb_id != r.team_feb_id)).head? with
    | none => rw [hh] at h; cases h
    | some o =>
      rw [hh] at h
      cases hrec : linksLoop rest m full with
      | none => rw [hrec] at h; cases h
      | some ls' =>
        rw [hrec] at h
        injection h with h
        subst h
        rcases List.mem_cons.mp hl with rfl | hl'
        · rfl
        · exact ih hrec hl'

/-- Every link emitted for match `m` carries match id `m`, and is only
emitted when the team table has exactly two rows for `m`. -/
lemma linksForMatch_mem {teams : List TeamRow} {m : ℕ} {ls : List OppLink}
    (h : linksForMatch teams m = some ls) {l : OppLink} (hl : l ∈ ls) :
    l.match_feb_id = m ∧ (teams.filter (fun t => t.match_feb_id == m)).length = 2 := by
  rw [linksForMatch] at h
  split_ifs at h with h2
  · exact ⟨linksLoop_mem h hl, h2⟩
  · injection h with h
    subst h
    cases hl

/-- Every link accumulated by the outer opponent loop comes from
`linksForMatch` at one of the visited match ids. -/
lemma opponentLoop_mem {mids : List ℕ} {teams : List TeamRow} {links : List OppLink}
    {l : OppLink} (h : opponentLoop mids teams = some links) (hl : l ∈ links) :
    ∃ m' ∈ mids, ∃ ls, linksForMatch teams m' = some ls ∧ l ∈ ls := by
  induction mids generalizing links with
  | nil =>
    rw [opponentLoop] at h
    injection h with h
    subst h
    cases hl
  | cons m ms ih =>
    rw [opponentLoop] at h
    cases h1 : linksForMatch teams m with
    | none => rw [h1] at h; cases h
    | some ls1 =>
      rw [h1] at h
      cases h2 : opponentLoop ms teams with
      | none => rw [h2] at h; cases h
      | some rest =>
        rw [h2] at h
        injection h with h
        subst h
        rcases List.mem_append.mp hl with hl1 | hl2
        · exact ⟨m, List.mem_cons_self _ _, ls1, h1, hl1⟩
        · obtain ⟨m', hm', ls', hls', hl'⟩ := ih h2 hl2
          exact ⟨m', List.mem_cons_of_mem _ hm', ls', hls', hl'⟩

/-- A player row with no matching opponent link survives a successful left
merge with its opponent columns unset. -/
lemma merge_unmatched_mem {players : List PlayerRow} {links : List OppLink} {p : PlayerRow}
    (hp : p ∈ players)
    (hfil : links.filter (fun l => l.match_feb_id == p.match_feb_id
        && l.team_feb_id == p.team_feb_id) = []) :
    EnrichedRow.mk p none ∈ mergeRows players links := by
  rw [mergeRows]
  apply List.mem_flatMap.mpr
  refine ⟨p, hp, ?_⟩
  rw [hfil]
  simp

/-- Every row of a successful merge belonging to a player with no matching
opponent link has its opponent columns unset. -/
lemma merge_unmatched_none {players : List PlayerRow} {links : List OppLink} {p : PlayerRow}
    (hfil : links.filter (fun l => l.match_feb_id == p.match_feb_id
        && l.team_feb_id == p.team_feb_id) = []) :
    ∀ e ∈ mergeRows players links, e.base = p → e.opp = none := by
  intro e he hbase
  rw [mergeRows] at he
  obtain ⟨q, hq, he2⟩ := List.mem_flatMap.mp he
  cases hq2 : links.filter (fun l => l.match_feb_id == q.match_feb_id
      && l.team_feb_id == q.team_feb_id) with
  | nil =>
    rw [hq2] at he2
    have he3 : e = ⟨q, none⟩ := by simpa using he2
    rw [he3]
  | cons x xs =>
    rw [hq2] at he2
    exfalso
    obtain ⟨l0, hl0, he3⟩ := List.mem_map.mp he2
    have hqp : q = p := by rw [← hbase, ← he3]
    rw [hqp, hfil] at hq2
    exact List.noConfusion hq2

/-- **C1 (amended)**: Opponent links are emitted for a match exactly when
the team table has exactly two rows for it: no link carries a match id whose
team-row count differs from two; when the two rows (of distinct teams, as
the `(team_id, match_id)` key guarantees) are present, each team's link
carries the other team's points and its possessions
`fga + 0.44·fta − orb + tov`.  When the merge with `df_opponents` succeeds —
i.e. when at least one link was emitted in the run — a player row without a
matching link keeps its opponent columns unset (`none`, not zero), in
particular every player row of a match without a unique team pair; when no
link at all is emitted, `pd.DataFrame([])` lacks the join columns and the
merge raises `KeyError` instead of producing rows. -/
theorem C1_opponent_resolution (players : List PlayerRow) (teams : List TeamRow) :
    (∀ m links, opponentData players teams = some links →
        (teams.filter (fun t => t.match_feb_id == m)).length ≠ 2 →
        ∀ l ∈ links, l.match_feb_id ≠ m)
    ∧ (∀ m r1 r2, teams.filter (fun t => t.match_feb_id == m) = [r1, r2] →
        r1.team_feb_id ≠ r2.team_feb_id →
        linksForMatch teams m = some
          [⟨m, r1.team_feb_id, team_possessions r2, r2.pts⟩,
           ⟨m, r2.team_feb_id, team_possessions r1, r1.pts⟩])
    ∧ (∀ links p rows, mergeOpponents players links = some rows → p ∈ players →
        links.filter (fun l => l.match_feb_id == p.match_feb_id
            && l.team_feb_id == p.team_feb_id) = [] →
        EnrichedRow.mk p none ∈ rows
        ∧ ∀ e ∈ rows, e.base = p → e.opp = none)
    ∧ (∀ links p rows, opponentData players teams = some links →
        mergeOpponents players links = some rows → p ∈ players →
        (teams.filter (fun t => t.match_feb_id == p.match_feb_id)).length ≠ 2 →
        ∀ e ∈ rows, e.base = p → e.opp = none)
    ∧ mergeOpponents players [] = none := by
  have ha : ∀ m links, opponentData players teams = some links →
      (teams.filter (fun t => t.match_feb_id == m)).length ≠ 2 →
      ∀ l ∈ links, l.match_feb_id ≠ m := by
    intro m links h hlen l hl heq
    rw [opponentData] at h
    obtain ⟨m', -, ls, hls, hl'⟩ := opponentLoop_mem h hl
    obtain ⟨hlm, hcount⟩ := linksForMatch_mem hls hl'
    rw [hlm] at heq
    rw [heq] at hcount
    exact hlen hcount
  have hsome : ∀ links rows, mergeOpponents players links = some rows →
      rows = mergeRows players links := by
    intro links rows h
    rw [mergeOpponents] at h
    split_ifs at h
    injection h with h
    exact h.symm
  refine ⟨ha, ?_, ?_, ?_, ?_⟩
  · intro m r1 r2 hfil hne
    rw [linksForMatch, hfil]
    rw [if_pos (show ([r1, r2] : List TeamRow).length = 2 from rfl)]
    rw [linksLoop]
    have he1 : [r1, r2].filter (fun s => s.team_feb_id != r1.team_feb_id) = [r2] := by
      simp [List.filter_cons, bne_iff_ne, bne_self_eq_false, Ne.symm hne]
    have he2 : [r1, r2].filter (fun s => s.team_feb_id != r2.team_feb_id) = [r1] := by
      simp [List.filter_cons, bne_iff_ne, bne_self_eq_false, hne]
    rw [he1]
    simp only [List.head?_cons]
    rw [linksLoop, he2]
    simp only [List.head?_cons]
    rw [linksLoop]
  · intro links p rows hmerge hp hfil
    rw [hsome links rows hmerge]
    exact ⟨merge_unmatched_mem hp hfil, merge_unmatched_none hfil⟩
  · intro links p rows h hmerge hp hlen
    have hfil : links.filter (fun l => l.match_feb_id == p.match_feb_id
        && l.team_feb_id == p.team_feb_id) = [] := by
      rw [List.filter_eq_nil_iff]
      intro l hl
      have hne := ha p.match_feb_id links h hlen l hl
      simp [hne]
    rw [hsome links rows hmerge]
    exact merge_unmatched_none hfil
  · rw [mergeOpponents]
    rfl

/-- Counterexample for C1 as originally stated: with one player row for
match 5 but a team table holding only one row for that match, no match has a
team pair, so `opponent_data` is empty and the merge step crashes (`none`,
the `KeyError` of merging with the column-less `pd.DataFrame([])`) — no
player row with unset opponent columns is ever produced. -/
theorem C1_opponent_resolution_counterexample :
    opponentData [pGame1] [tGameA] = some []
    ∧ mergeOpponents [pGame1] [] = none
    ∧ ∀ rows, mergeOpponents [pGame1] [] = some rows → False := by
  refine ⟨rfl, rfl, ?_⟩
  intro rows h
  exact Option.noConfusion h

/-- Witness for C1 at the spec's literal example: the two team rows of match
5 (70 points / 70 possessions and 60 points / 65 possessions) produce a link
to the opposing totals for each team, and — the merge succeeding on the
nonempty link set — a player row of match 6, which has no matching link,
keeps its opponent columns unset. -/
theorem C1_opponent_resolution_witness :
    linksForMatch [tGameA, tGameB] 5
      = some [⟨5, 1, 65, 60⟩, ⟨5, 2, 70, 70⟩]
    ∧ EnrichedRow.mk pGame2 none ∈ mergeRows [pGame2] [⟨5, 1, 65, 60⟩] := by
  constructor
  · have h := (C1_opponent_resolution [pGame2] [tGameA, tGameB]).2.1 5 tGameA tGameB
      (by rfl) (by decide)
    rw [h]
    norm_num [team_possessions, FREE_THROW_POSSESSION_FACTOR, tGameA, tGameB]
  · exact ((C1_opponent_resolution [pGame2] [tGameA, tGameB]).2.2.1
      [⟨5, 1, 65, 60⟩] pGame2 (mergeRows [pGame2] [⟨5, 1, 65, 60⟩])
      (by rfl) (by simp) (by rfl)).1

/-- The per-column variance is a mean of squares, hence nonnegative. -/
lemma colVar_nonneg (m : List (List ℚ)) (j : ℕ) : 0 ≤ colVar m j := by
  rw [colVar]
  apply div_nonneg
  · apply List.sum_nonneg
    intro x hx
    obtain ⟨y, -, rfl⟩ := List.mem_map.mp hx
    exact sq_nonneg _
  · exact Nat.cast_nonneg _

/-- The fitted scale is never zero: zero variance falls back to `1`, positive
variance has a positive square root. -/
lemma colScale_ne_zero (m : List (List ℚ)) (j : ℕ) : colScale m j ≠ 0 := by
  rw [colScale]
  split_ifs with h
  · exact one_ne_zero
  · have hpos : (0 : ℚ) < colVar m j := lt_of_le_of_ne (colVar_nonneg m j) (Ne.symm h)
    have : (0 : ℝ) < Real.sqrt (colVar m j) := Real.sqrt_pos.mpr (by exact_mod_cast hpos)
    exact ne_of_gt this

/-- Scaling then inverse-scaling one cell is the identity. -/
lemma invEntry_scaleEntry (m : List (List ℚ)) (j : ℕ) (x : ℚ) :
    invEntry m j (scaleEntry m j x) = (x : ℝ) := by
  rw [invEntry, scaleEntry, div_mul_cancel₀ _ (colScale_ne_zero m j)]
  ring

/-- The clean matrix of a rectangular table is rectangular with the same
width. -/
lemma cleanMatrix_rect {t : FTable} (hrect : ∀ row ∈ t.rows, row.length = t.cols.length)
    (fill : ℚ) :
    ∀ row ∈ cleanMatrix true fill t, row.length = t.cols.length := by
  intro row hrow
  rw [cleanMatrix, cleanTable] at hrow
  simp only [List.map_map, List.mem_map] at hrow
  obtain ⟨r0, h0, rfl⟩ := hrow
  simpa using hrect r0 h0

/-- **C6**: In standard mode, `inverse_transform` applied to the scaled
output of `fit_transform` reconstructs the clean table (the
infinity/NaN-handled copy of the input) exactly. -/
theorem C6_scaler_round_trip (t : FTable) (fill : ℚ)
    (hrect : ∀ row ∈ t.rows, row.length = t.cols.length) :
    inverseMatrix (cleanMatrix true fill t) t.cols.length
        (scaledMatrix t.cols.length (cleanMatrix true fill t))
      = (cleanMatrix true fill t).map (fun row => row.map (fun q : ℚ => (q : ℝ))) := by
  have hrect' := cleanMatrix_rect hrect fill
  rw [inverseMatrix, scaledMatrix, List.map_map]
  apply List.map_congr_left
  intro row hrow
  have hlen : row.length = t.cols.length := hrect' row hrow
  simp only [Function.comp_apply]
  apply List.ext_getElem
  · simp [hlen]
  · intro i h1 h2
    simp only [List.length_map, List.length_range] at h1
    rw [List.getElem_map, List.getElem_map, List.getElem_range]
    have hget : ((List.range t.cols.length).map
        (fun j => scaleEntry (cleanMatrix true fill t) j (row.getD j 0))).getD i 0
        = scaleEntry (cleanMatrix true fill t) i (row.getD i 0) := by
      rw [List.getD_eq_getElem?_getD, List.getElem?_map, List.getElem?_range h1]
      rfl
    rw [hget, invEntry_scaleEntry, List.getD_eq_getElem _ _ (by rw [hlen]; exact h1)]

/-- Witness for C6 on a rectangular one-column table with cells 2 and 4:
the inverse of the scaled matrix is exactly the (cast) clean matrix. -/
theorem C6_scaler_round_trip_witness :
    inverseMatrix (cleanMatrix true 0 ⟨["a"], [[FVal.fin 2], [FVal.fin 4]]⟩) 1
        (scaledMatrix 1 (cleanMatrix true 0 ⟨["a"], [[FVal.fin 2], [FVal.fin 4]]⟩))
      = (cleanMatrix true 0 ⟨["a"], [[FVal.fin 2], [FVal.fin 4]]⟩).map
          (fun row => row.map (fun q : ℚ => (q : ℝ))) :=
  C6_scaler_round_trip ⟨["a"], [[FVal.fin 2], [FVal.fin 4]]⟩ 0
    (by intro row hrow
        have hcase : row = [FVal.fin 2] ∨ row = [FVal.fin 4] := by simpa using hrow
        rcases hcase with h | h <;> rw [h] <;> rfl)

end FEB
